import Mathlib

/-!
Verification development for the attachment-normalization and memory subsystem
of the Twilightin/ai-chatbot repository.

The embedding below translates, into Lean, the memory query layer
(`saveMemory`, `getMemoriesByUserId`, `formatMemoriesForContext`,
`extractMemoriesFromConversation` from the drizzle-based memory module),
the text-extraction helpers (`extractTextFromPDF`, `extractTextFromTextFile`
from `lib/ai/providers.ts`), the client-side part assembly of
`components/multimodal-input.tsx` (`mappedParts` / `sendMessage`), and the
second-stage provider adaptation of `app/(chat)/api/chat/route.ts`
(`processedModelMessages`).

Database state is modelled as a list of rows; timestamps are naturals handed
in as the `now` argument; the `Memory` table's `importance` and `accessCount`
columns are `text` columns (migration `0008_narrow_carmella_unuscione.sql`),
so they are modelled as `String` and `CAST(x AS INTEGER)` as the numeric
reading of that string.
-/

/-- Byte-wise (code-point-wise) strict lexicographic order used to model how
Postgres orders `text` values made of ASCII digits (`ORDER BY importance DESC`
on a `text` column compares character by character). -/
def impKeyOfString (s : String) : List Nat := s.toList.map Char.toNat

/-- `listStartsWith p l` : `p` is a prefix of `l` (models JS `startsWith`). -/
def listStartsWith : List Char → List Char → Bool
  | [], _ => true
  | _ :: _, [] => false
  | a :: as, b :: bs => a == b && listStartsWith as bs

/-- Models JS `String.prototype.startsWith`. -/
def strStartsWith (s pre : String) : Bool := listStartsWith pre.toList s.toList

/-- Models JS `String.prototype.endsWith`. -/
def strEndsWith (s suf : String) : Bool :=
  listStartsWith suf.toList.reverse s.toList.reverse

/-- First index at which `needle` occurs as a contiguous sublist of the
haystack, if any (models JS `String.prototype.indexOf`). -/
def firstIdxOfSub (needle : List Char) : List Char → Option Nat
  | [] => if listStartsWith needle [] then some 0 else none
  | c :: t =>
    if listStartsWith needle (c :: t) then some 0
    else (firstIdxOfSub needle t).map (· + 1)

/-- Models JS `String.prototype.indexOf` on strings. -/
def strIndexOf (hay needle : String) : Option Nat :=
  firstIdxOfSub needle.toList hay.toList

/-- Models JS `String.prototype.includes` (used on parser error messages). -/
def strContainsB (hay needle : String) : Bool := (strIndexOf hay needle).isSome

/-- JS whitespace relevant to `.trim()` for the strings this code builds. -/
def jsWhitespace (c : Char) : Bool := c == ' ' || c == '\n' || c == '\t' || c == '\r'

/-- Models JS `String.prototype.trim`. -/
def jsTrim (s : String) : String :=
  (((s.toList.dropWhile jsWhitespace).reverse.dropWhile jsWhitespace).reverse).asString

/-- Models JS `String.prototype.slice(0, n)` (our inputs are ASCII, so the
UTF-16 code-unit count coincides with the character count). -/
def jsSlice (s : String) (n : Nat) : String := (s.toList.take n).asString

/-- Models `CAST(x AS INTEGER)` on the decimal strings this code stores in
the `text` columns `importance` and `accessCount` (the numeric reading of a
string of decimal digits; Postgres raises on anything else, which this code
never stores). -/
def castInt (s : String) : Nat :=
  s.toList.foldl (fun acc c => acc * 10 + (c.toNat - 48)) 0

/-- A row of the `Memory` table (migration `0008_narrow_carmella_unuscione.sql`):
`importance` and `accessCount` are `text` columns, timestamps are naturals,
`metadata` is kept opaque as an optional string. -/
structure Mem where
  id : Nat
  userId : Nat
  chatId : Option String
  category : String
  key : String
  value : String
  importance : String
  createdAt : Nat
  updatedAt : Nat
  lastAccessedAt : Nat
  accessCount : String
  metadata : Option String
deriving DecidableEq, Repr

/-- The memory store: the `Memory` table rows plus a fresh-id supply
standing in for `gen_random_uuid()`. -/
structure MemDb where
  rows : List Mem
  nextId : Nat
deriving DecidableEq, Repr

/-- `CreateMemoryParams` of the memory module; `importance` defaults to 5 as
in the destructuring `importance = 5`. -/
structure CreateMemoryParams where
  userId : Nat
  chatId : Option String := none
  category : String
  key : String
  value : String
  importance : Nat := 5
  metadata : Option String := none
deriving DecidableEq, Repr

/-- JS truthiness of an optional string (`chatId && ...`): present and
non-empty. -/
def strTruthy : Option String → Bool
  | none => false
  | some s => s ≠ ""

/-- The `.set({...})` object of `saveMemory`'s update branch applied to the
existing row `r`: `value`, `importance`, `updatedAt`, `lastAccessedAt`,
`accessCount + 1` and `metadata` are written (drizzle skips a field whose
value is `undefined`, so an absent `metadata` leaves the column unchanged),
and `chatId` only when a truthy one was supplied (`...(chatId && { chatId })`);
all other columns — in particular `category` and `createdAt` — are not in
the update set and stay as they were. -/
def updatedRow (r : Mem) (p : CreateMemoryParams) (now : Nat) : Mem :=
  { r with
    value := p.value
    importance := toString p.importance
    updatedAt := now
    lastAccessedAt := now
    accessCount := toString (castInt r.accessCount + 1)
    metadata := if p.metadata.isSome then p.metadata else r.metadata
    chatId := if strTruthy p.chatId then p.chatId else r.chatId }

/-- The `.values({...})` object of `saveMemory`'s insert branch:
`accessCount = "1"`, `chatId: chatId || null`, `metadata: metadata || null`,
and all three timestamps set to now. -/
def insertedRow (st : MemDb) (p : CreateMemoryParams) (now : Nat) : Mem :=
  { id := st.nextId
    userId := p.userId
    chatId := if strTruthy p.chatId then p.chatId else none
    category := p.category
    key := p.key
    value := p.value
    importance := toString p.importance
    createdAt := now
    updatedAt := now
    lastAccessedAt := now
    accessCount := "1"
    metadata := p.metadata }

/-- `saveMemory`: select the first row with the same `(userId, key)`
(`.limit(1)`); if found, update that row in place via `updatedRow`,
otherwise insert `insertedRow`. Returns the written row. -/
def saveMemory (st : MemDb) (p : CreateMemoryParams) (now : Nat) : MemDb × Mem :=
  match st.rows.filter (fun m => m.userId == p.userId && m.key == p.key) with
  | r :: _ =>
    (⟨st.rows.map (fun m => if m.id == r.id then updatedRow r p now else m), st.nextId⟩,
      updatedRow r p now)
  | [] =>
    (⟨st.rows ++ [insertedRow st p now], st.nextId + 1⟩, insertedRow st p now)

/-- Run a sequence of `saveMemory` calls (each with its own clock value). -/
def runSaves (st : MemDb) : List (CreateMemoryParams × Nat) → MemDb
  | [] => st
  | (p, now) :: rest => runSaves (saveMemory st p now).1 rest

/-- The options object of `getMemoriesByUserId`; `0` models an absent
(`undefined`, hence falsy) `limit` / `minImportance`. -/
structure MemQueryOptions where
  category : Option String := none
  limit : Nat := 0
  minImportance : Nat := 0
deriving DecidableEq, Repr

/-- The WHERE conditions of `getMemoriesByUserId`: `userId` always, the
category filter when given, and `CAST(importance AS INTEGER) >= minImportance`
only when `minImportance` is truthy. -/
def memQueryCond (u : Nat) (opts : MemQueryOptions) (m : Mem) : Bool :=
  m.userId == u
  && (match opts.category with | some c => m.category == c | none => true)
  && (opts.minImportance == 0 || decide (opts.minImportance ≤ castInt m.importance))

/-- `ORDER BY importance DESC, "updatedAt" DESC` where `importance` is a
`text` column: the primary key is the *lexicographic* order on the stored
string, not the numeric value. -/
def memOrderDesc (a b : Mem) : Bool :=
  decide (impKeyOfString b.importance < impKeyOfString a.importance)
  || (decide (impKeyOfString a.importance = impKeyOfString b.importance)
      && decide (b.updatedAt ≤ a.updatedAt))

/-- The ordering of the query's ORDER BY clause as a relation. -/
def memOrderR (a b : Mem) : Prop := memOrderDesc a b = true

instance memOrderR.decRel : DecidableRel memOrderR :=
  fun a b => inferInstanceAs (Decidable (memOrderDesc a b = true))

instance memOrderR.instIsTrans : IsTrans Mem memOrderR := by
  constructor
  intro a b c hab hbc
  unfold memOrderR memOrderDesc at *
  simp only [Bool.or_eq_true, Bool.and_eq_true, decide_eq_true_eq] at *
  rcases hab with h1 | ⟨h1, h1u⟩ <;> rcases hbc with h2 | ⟨h2, h2u⟩
  · exact Or.inl (lt_trans h2 h1)
  · exact Or.inl (h2 ▸ h1)
  · exact Or.inl (h1 ▸ h2)
  · exact Or.inr ⟨h1.trans h2, le_trans h2u h1u⟩

instance memOrderR.instIsTotal : IsTotal Mem memOrderR := by
  constructor
  intro a b
  unfold memOrderR memOrderDesc
  simp only [Bool.or_eq_true, Bool.and_eq_true, decide_eq_true_eq]
  rcases lt_trichotomy (impKeyOfString a.importance) (impKeyOfString b.importance) with h | h | h
  · exact Or.inr (Or.inl h)
  · rcases Nat.le_total a.updatedAt b.updatedAt with hu | hu
    · exact Or.inr (Or.inr ⟨h.symm, hu⟩)
    · exact Or.inl (Or.inr ⟨h, hu⟩)
  · exact Or.inl (Or.inl h)

/-- `getMemoriesByUserId`: filter, order, truncate to `limit || 50`; then, as
a side effect, bump `lastAccessedAt` and `accessCount` of every returned row.
Returns the selected rows (as read, i.e. pre-bump) and the new table state. -/
def getMemoriesByUserId (st : MemDb) (u : Nat) (opts : MemQueryOptions)
    (now : Nat) : List Mem × MemDb :=
  let results :=
    (List.insertionSort memOrderR (st.rows.filter (memQueryCond u opts))).take
      (if opts.limit == 0 then 50 else opts.limit)
  let ids := results.map (·.id)
  let rows' :=
    if results.length == 0 then st.rows
    else st.rows.map (fun m =>
      if ids.contains m.id then
        { m with lastAccessedAt := now,
                 accessCount := toString (castInt m.accessCount + 1) }
      else m)
  (results, ⟨rows', st.nextId⟩)

/-- `mem.category || "context"`: the effective grouping category. -/
def effCat (m : Mem) : String := if m.category = "" then "context" else m.category

/-- One step of the `reduce` that groups memories: JS objects keep string
keys in insertion order, so appending to an existing key keeps its position
and a new key goes to the end. -/
def groupInsert (acc : List (String × List Mem)) (c : String) (m : Mem) :
    List (String × List Mem) :=
  match acc with
  | [] => [(c, [m])]
  | (c0, ms) :: rest =>
    if c0 = c then (c0, ms ++ [m]) :: rest
    else (c0, ms) :: groupInsert rest c m

/-- The `memories.reduce(...)` grouping of `formatMemoriesForContext`. -/
def groupByCategory (mems : List Mem) : List (String × List Mem) :=
  mems.foldl (fun acc m => groupInsert acc (effCat m) m) []

/-- `categoryTitles[category] || category`. -/
def categoryTitle (c : String) : String :=
  if c = "preference" then "Preferences"
  else if c = "personal" then "Personal Information"
  else if c = "context" then "Context & Background"
  else if c = "fact" then "Known Facts"
  else c

/-- Rendering of one grouped section of `formatMemoriesForContext`. -/
def renderGroup (g : String × List Mem) : String :=
  "### " ++ categoryTitle g.1 ++ "\n"
    ++ String.join (g.2.map (fun m => "- " ++ m.key ++ ": " ++ m.value ++ "\n"))
    ++ "\n"

/-- `formatMemoriesForContext`: empty string on no records, otherwise the
`## User Memory` header followed by one headed section per grouped category
(in the grouping's insertion order), trimmed. -/
def formatMemoriesForContext (mems : List Mem) : String :=
  if mems.length == 0 then ""
  else jsTrim ("## User Memory\n\n"
    ++ String.join ((groupByCategory mems).map renderGroup))

/-- A client-side attachment as produced by the upload handler of
`multimodal-input.tsx`: PDF/TXT uploads carry the server-extracted text,
image uploads carry a base64 data URI in `url`. -/
structure Attachment where
  name : String
  url : String
  contentType : String
  extractedText : Option String := none
deriving DecidableEq, Repr

/-- A UI message part sent by `sendMessage` in `multimodal-input.tsx`. -/
inductive UIPart where
  | utext (text : String)
  | ufile (name url mediaType : String)
deriving DecidableEq, Repr

/-- The per-attachment mapping of `mappedParts` in `submitForm`
(`multimodal-input.tsx`): PDF/TXT attachments become a text part
`"[File: <name>]\n\n" + extractedText.slice(0, 2000)` (a hard-coded 2000
character cut with no marker); image attachments are forwarded as file parts
carrying their data-URI url (branch reconstructed from
`IMAGE_VISION_SUCCESS.md`); anything else maps to `undefined` and is
filtered out. -/
def mapAttachment (a : Attachment) : Option UIPart :=
  if a.contentType = "application/pdf" || a.contentType = "text/plain" then
    some (.utext ("[File: " ++ a.name ++ "]\n\n" ++ jsSlice (a.extractedText.getD "") 2000))
  else if strStartsWith a.contentType "image/" then
    some (.ufile a.name a.url a.contentType)
  else none

/-- The parts array handed to `sendMessage`:
`[...mappedParts, { type: "text", text: input || "" }]` — all
attachment-derived parts first, then the free-text input as the final part.
(For a `String`, JS `input || ""` is `input` itself.) -/
def submitMessageParts (attachments : List Attachment) (input : String) : List UIPart :=
  attachments.filterMap mapAttachment ++ [.utext input]

/-- A part of a lowered provider message (after `convertToModelMessages`):
text parts, file parts with optional `data`, image parts, or some other
part kind left opaque. -/
inductive MPart where
  | mtext (text : String)
  | mfile (data : Option String)
  | mimage (image : String)
  | mtool
deriving DecidableEq, Repr

/-- `msg.content` of a lowered message: either a plain string or an array of
parts (`Array.isArray(msg.content)`). -/
inductive MsgContent where
  | cstr (s : String)
  | cparts (ps : List MPart)
deriving DecidableEq, Repr

/-- A lowered provider message. -/
structure MMsg where
  role : String
  content : MsgContent
deriving DecidableEq, Repr

/-- The second-stage per-part repair of `processedModelMessages`
(`app/(chat)/api/chat/route.ts`): a file part whose truthy `data` starts
with `"data:image/"` becomes `{ type: "image", image: part.data }`; every
other part is returned unchanged. -/
def processModelPart (p : MPart) : MPart :=
  match p with
  | .mfile (some d) =>
    if d ≠ "" && strStartsWith d "data:image/" then .mimage d else .mfile (some d)
  | q => q

/-- `processedModelMessages`: map the per-part repair over every message
whose content is an array; other messages pass through unchanged. -/
def processedModelMessages (msgs : List MMsg) : List MMsg :=
  msgs.map fun m =>
    match m.content with
    | .cparts ps => ⟨m.role, .cparts (ps.map processModelPart)⟩
    | .cstr s => ⟨m.role, .cstr s⟩

/-- Outcome of the external `pdf-parse` call inside `extractTextFromPDF`:
either parsed data with a text field, or a thrown error with a message. -/
inductive PdfParseOutcome where
  | parsed (text : String) (numpages : Nat)
  | failed (message : String)
deriving DecidableEq, Repr

/-- The placeholder returned when the PDF parses but yields no text. -/
def emptyPdfPlaceholder : String :=
  "[This PDF appears to be empty or contains only images. No text could be extracted.]"

/-- The error-message classification of the catch branch of
`extractTextFromPDF`: best-effort string matching on the parser's message,
in this fixed order. -/
def pdfErrorMessage (msg : String) : String :=
  if strContainsB msg "Invalid PDF" then "Invalid or corrupted PDF file"
  else if strContainsB msg "password" then "PDF is password-protected"
  else if strContainsB msg "encrypted" then "PDF is encrypted"
  else if msg ≠ "" then "PDF parsing error: " ++ msg
  else "Failed to extract text from PDF"

/-- `extractTextFromPDF` (`lib/ai/providers.ts`), over the outcome of the
`pdf-parse` step: empty/whitespace-only text degrades to the visible
placeholder; otherwise the trimmed text is returned; a parse failure is
rethrown with the classified message — the function never turns a parse
failure into a returned string. -/
def extractTextFromPDF (out : PdfParseOutcome) : Except String String :=
  match out with
  | .parsed text _ =>
    if text = "" || (jsTrim text).toList.length == 0 then .ok emptyPdfPlaceholder
    else .ok (jsTrim text)
  | .failed msg => .error (pdfErrorMessage msg)

/-- A continuation byte `0x80–0xBF`. -/
def isContByte (b : Nat) : Bool := 128 ≤ b && b ≤ 191

/-- The WHATWG UTF-8 decoder used by Node's `Buffer.prototype.toString('utf-8')`:
returns the decoded code points together with a flag recording whether any
invalid sequence was replaced by U+FFFD. Invalid bytes never raise; decoding
resumes at the offending byte. -/
def utf8DecodeAux : List Nat → List Nat × Bool
  | [] => ([], false)
  | b :: rest =>
    if b < 128 then
      let r := utf8DecodeAux rest
      (b :: r.1, r.2)
    else if 194 ≤ b && b ≤ 223 then
      match rest with
      | c :: rest2 =>
        if isContByte c then
          let r := utf8DecodeAux rest2
          (((b - 192) * 64 + (c - 128)) :: r.1, r.2)
        else
          let r := utf8DecodeAux (c :: rest2)
          (65533 :: r.1, true)
      | [] => ([65533], true)
    else if 224 ≤ b && b ≤ 239 then
      let lo := if b = 224 then 160 else 128
      let hi := if b = 237 then 159 else 191
      match rest with
      | c1 :: rest2 =>
        if lo ≤ c1 && c1 ≤ hi then
          match rest2 with
          | c2 :: rest3 =>
            if isContByte c2 then
              let r := utf8DecodeAux rest3
              (((b - 224) * 4096 + (c1 - 128) * 64 + (c2 - 128)) :: r.1, r.2)
            else
              let r := utf8DecodeAux (c2 :: rest3)
              (65533 :: r.1, true)
          | [] => ([65533], true)
        else
          let r := utf8DecodeAux (c1 :: rest2)
          (65533 :: r.1, true)
      | [] => ([65533], true)
    else if 240 ≤ b && b ≤ 244 then
      let lo := if b = 240 then 144 else 128
      let hi := if b = 244 then 143 else 191
      match rest with
      | c1 :: rest2 =>
        if lo ≤ c1 && c1 ≤ hi then
          match rest2 with
          | c2 :: rest3 =>
            if isContByte c2 then
              match rest3 with
              | c3 :: rest4 =>
                if isContByte c3 then
                  let r := utf8DecodeAux rest4
                  (((b - 240) * 262144 + (c1 - 128) * 4096 + (c2 - 128) * 64 + (c3 - 128)) :: r.1, r.2)
                else
                  let r := utf8DecodeAux (c3 :: rest4)
                  (65533 :: r.1, true)
              | [] => ([65533], true)
            else
              let r := utf8DecodeAux (c2 :: rest3)
              (65533 :: r.1, true)
          | [] => ([65533], true)
        else
          let r := utf8DecodeAux (c1 :: rest2)
          (65533 :: r.1, true)
      | [] => ([65533], true)
    else
      let r := utf8DecodeAux rest
      (65533 :: r.1, true)
termination_by l => l.length
decreasing_by all_goals (simp [List.length_cons] <;> omega)

/-- The code points produced by Node's lossy UTF-8 decoding. -/
def utf8DecodeLossy (bytes : List Nat) : List Nat := (utf8DecodeAux bytes).1

/-- `bytes` is a valid UTF-8 encoding (no replacement was needed). -/
def validUtf8Bytes (bytes : List Nat) : Bool := !(utf8DecodeAux bytes).2

/-- Standard UTF-8 encoding of one scalar value. -/
def utf8EncodeChar (c : Nat) : List Nat :=
  if c < 128 then [c]
  else if c < 2048 then [192 + c / 64, 128 + c % 64]
  else if c < 65536 then [224 + c / 4096, 128 + (c / 64) % 64, 128 + c % 64]
  else [240 + c / 262144, 128 + (c / 4096) % 64, 128 + (c / 64) % 64, 128 + c % 64]

/-- Standard UTF-8 encoding of a sequence of scalar values. -/
def utf8Encode (cps : List Nat) : List Nat := (cps.map utf8EncodeChar).flatten

/-- The single error the spec assigns to `extractPlainText`. -/
inductive TextFileError where
  | decodingFailed
deriving DecidableEq, Repr

/-- `extractTextFromTextFile` (`lib/ai/providers.ts`): `buffer.toString('utf-8')`.
Node's lossy decoder is total — invalid sequences become U+FFFD — so the
`catch` branch (`throw new Error('Failed to read text file')`) is
unreachable and the function always returns the decoded text. -/
def extractTextFromTextFile (bytes : List Nat) : Except TextFileError (List Nat) :=
  .ok (utf8DecodeLossy bytes)

/-- `\w` of JS regexes. -/
def wordChar (c : Char) : Bool :=
  ('a' ≤ c && c ≤ 'z') || ('A' ≤ c && c ≤ 'Z') || ('0' ≤ c && c ≤ '9') || c == '_'

/-- JS `.` (dot) in a non-dotall regex: any character except line terminators
(our inputs never contain U+2028/U+2029, so newline and carriage return
suffice). -/
def dotChar (c : Char) : Bool := !(c == '\n' || c == '\r')

/-- Case-insensitive literal match at the head of the haystack (the `/i`
flag); returns the remainder on success. -/
def matchLitAt : List Char → List Char → Option (List Char)
  | [], rest => some rest
  | _ :: _, [] => none
  | l :: ls, c :: cs => if l.toLower = c.toLower then matchLitAt ls cs else none

/-- Greedy `(\w+)` at the current position: fails on zero word characters. -/
def captureWordChars (rest : List Char) : Option (List Char) :=
  let cap := rest.takeWhile wordChar
  if cap.isEmpty then none else some cap

/-- Greedy `(.+)` at the current position: fails on zero matching characters. -/
def captureDotPlus (rest : List Char) : Option (List Char) :=
  let cap := rest.takeWhile dotChar
  if cap.isEmpty then none else some cap

/-- `(?:a |an )?(.+)` after the literal `"I work as "`: the engine tries the
alternative `"a "`, then `"an "`, then the empty option, taking the first
that lets `(.+)` succeed. -/
def workSuffixCapture (rest : List Char) : Option (List Char) :=
  let alt2 : Option (List Char) :=
    match matchLitAt ['a', 'n', ' '] rest with
    | some r3 =>
      match captureDotPlus r3 with
      | some cap => some cap
      | none => captureDotPlus rest
    | none => captureDotPlus rest
  match matchLitAt ['a', ' '] rest with
  | some r2 =>
    match captureDotPlus r2 with
    | some cap => some cap
    | none => alt2
  | none => alt2

/-- Left-to-right scan of `String.prototype.match`: at each start position try
the literal prefix (case-insensitively) followed by the rule's capture; on
failure move one character right. Returns the first capture group. -/
def scanCapture (lit : List Char) (suffix : List Char → Option (List Char)) :
    List Char → Option (List Char)
  | [] =>
    match matchLitAt lit [] with
    | some rest => suffix rest
    | none => none
  | c :: t =>
    match matchLitAt lit (c :: t) with
    | some rest =>
      match suffix rest with
      | some cap => some cap
      | none => scanCapture lit suffix t
    | none => scanCapture lit suffix t

/-- One entry of the `patterns` array of `extractMemoriesFromConversation`:
its target key and category, plus the matcher embedding its regex. -/
structure ExtractionRule where
  key : String
  category : String
  matcher : List Char → Option (List Char)

/-- The fixed ordered pattern list of `extractMemoriesFromConversation`:
`/my name is (\w+)/i`, `/I live in (\w+)/i`, `/I work as (?:a |an )?(.+)/i`,
`/I prefer (\w+)/i`. -/
def memoryPatterns : List ExtractionRule :=
  [ ⟨"name", "personal", scanCapture "my name is ".toList captureWordChars⟩,
    ⟨"location", "personal", scanCapture "i live in ".toList captureWordChars⟩,
    ⟨"job", "personal", scanCapture "i work as ".toList workSuffixCapture⟩,
    ⟨"preference", "preference", scanCapture "i prefer ".toList captureWordChars⟩ ]

/-- The loop body of `extractMemoriesFromConversation`. `failsAt i = true`
models the environment making the `saveMemory` call of rule `i` throw (e.g. a
database error); the `catch` logs the error and the loop continues with the
next rule, so a failure never escapes. Matching is performed on the user
message only. -/
def extractLoop (failsAt : Nat → Bool) (userMessage : List Char) (u : Nat)
    (chatId : String) (now : Nat) : Nat → List ExtractionRule → MemDb →
    MemDb × List Mem
  | _, [], st => (st, [])
  | i, rule :: rs, st =>
    match rule.matcher userMessage with
    | some cap =>
      if !cap.isEmpty then
        if failsAt i then
          -- the write threw; it is caught and logged, the loop continues
          extractLoop failsAt userMessage u chatId now (i + 1) rs st
        else
          let s := saveMemory st
            { userId := u, chatId := some chatId, category := rule.category,
              key := rule.key, value := cap.asString, importance := 7,
              metadata := some "extractedFrom: conversation" } now
          let r := extractLoop failsAt userMessage u chatId now (i + 1) rs s.1
          (r.1, s.2 :: r.2)
      else
        extractLoop failsAt userMessage u chatId now (i + 1) rs st
    | none => extractLoop failsAt userMessage u chatId now (i + 1) rs st

/-- `extractMemoriesFromConversation`: apply the fixed rule list, in order,
to the user message; each match upserts one memory with importance 7; the
`aiResponse` argument is received but never consulted. Returns the new store
and the saved records. -/
def extractMemoriesFromConversation (failsAt : Nat → Bool) (st : MemDb)
    (u : Nat) (chatId : String) (userMessage aiResponse : String) (now : Nat) :
    MemDb × List Mem :=
  extractLoop failsAt userMessage.toList u chatId now 0 memoryPatterns st

/-- Categories in order of first occurrence, starting from already-seen ones:
the key order of a JS object built by insertion. -/
def seenFoldCats (seen : List String) : List String → List String
  | [] => seen
  | c :: cs => seenFoldCats (if c ∈ seen then seen else seen ++ [c]) cs

/-- The category order `Object.entries` yields for the grouping object:
first-occurrence order of the effective categories. -/
def firstOccurrences (l : List String) : List String := seenFoldCats [] l

/-- Well-formedness of a grouping against its source list: every group is
non-empty and holds only source records of its own category. -/
def GroupsOK (src : List Mem) (gs : List (String × List Mem)) : Prop :=
  ∀ g ∈ gs, g.2 ≠ [] ∧ ∀ m ∈ g.2, m ∈ src ∧ effCat m = g.1

/-- At most one row per `(userId, key)` pair. -/
def UniqueUserKey (rows : List Mem) : Prop :=
  List.Pairwise (fun a b => ¬(a.userId = b.userId ∧ a.key = b.key)) rows

/-- Internal well-formedness of the store: distinct ids, unique
`(userId, key)` pairs, and all ids below the fresh-id supply. -/
def StateOK (st : MemDb) : Prop :=
  List.Pairwise (fun a b => a.id ≠ b.id) st.rows ∧
  UniqueUserKey st.rows ∧
  ∀ m ∈ st.rows, m.id < st.nextId

/-- Concrete fixtures used by the counterexamples and witnesses. -/
def exMemTen : Mem := ⟨1, 1, none, "fact", "alpha", "va", "10", 0, 100, 0, "1", none⟩

def exMemNine : Mem := ⟨2, 1, none, "personal", "beta", "vb", "9", 0, 50, 0, "1", none⟩

def exMemFact : Mem := ⟨3, 1, none, "fact", "a1", "v1", "8", 0, 10, 0, "1", none⟩

def exMemPersonal : Mem := ⟨4, 1, none, "personal", "b1", "v2", "7", 0, 20, 0, "1", none⟩

def exRow : Mem := ⟨5, 1, none, "personal", "name", "Bob", "5", 3, 3, 3, "4", some "old"⟩

def exParams : CreateMemoryParams := ⟨1, some "chat9", "fact", "name", "Alice", 7, some "meta2"⟩

def exNameParams : CreateMemoryParams := ⟨1, none, "personal", "name", "Alice", 7, none⟩

def exBigText : String := (List.replicate 2500 'a').asString

def exTruncAttachment : Attachment :=
  ⟨"doc.pdf", "/uploads/doc.pdf", "application/pdf", some exBigText⟩

/-- The part text the client actually assembles for `exTruncAttachment`:
the file header followed by exactly the first 2000 characters. -/
def exTruncPartText : String :=
  ("[File: doc.pdf]\n\n".toList ++ List.replicate 2000 'a').asString

/-- C4: in every assembled turn, the attachment-derived parts (the
`mappedParts`) come first and the free-text user input is always the final
part; in particular one text artifact `"hello"` plus the input
`"summarize"` yields `[documentText("hello"), text("summarize")]` (the
document part rendered as `"[File: f.txt]\n\nhello"`). -/
theorem c4_attachment_parts_precede_user_text (atts : List Attachment) (input : String) :
    (submitMessageParts atts input).getLast? = some (.utext input) ∧
    (submitMessageParts atts input).dropLast = atts.filterMap mapAttachment ∧
    (∀ p ∈ (submitMessageParts atts input).dropLast,
      ∃ a ∈ atts, mapAttachment a = some p) ∧
    submitMessageParts [⟨"f.txt", "/uploads/f.txt", "text/plain", some "hello"⟩] "summarize"
      = [.utext "[File: f.txt]\n\nhello", .utext "summarize"] := by
  refine ⟨?_, ?_, ?_, by decide⟩
  · simp [submitMessageParts]
  · simp [submitMessageParts]
  · intro p hp
    simp only [submitMessageParts, List.dropLast_concat] at hp
    exact List.mem_filterMap.mp hp

/-- C4 witness: the ordering facts instantiated on the concrete one-artifact
turn. -/
theorem c4_attachment_parts_precede_user_text_witness :
    ∃ a ∈ [(⟨"f.txt", "/uploads/f.txt", "text/plain", some "hello"⟩ : Attachment)],
      mapAttachment a = some (.utext "[File: f.txt]\n\nhello") :=
  (c4_attachment_parts_precede_user_text
      [⟨"f.txt", "/uploads/f.txt", "text/plain", some "hello"⟩] "summarize").2.2.1
    (.utext "[File: f.txt]\n\nhello") (by decide)

/-- C2: the claim says an over-long extracted document text is truncated
with the visible `"[... content truncated ...]"` marker; the code instead
silently slices to 2000 characters with no marker. Evaluated at a
2500-character extraction, the assembled part is the file header plus
exactly the first 2000 characters and does not end with the marker. -/
theorem c2_truncation_marker_missing :
    mapAttachment exTruncAttachment = some (.utext exTruncPartText) ∧
    strEndsWith exTruncPartText "[... content truncated ...]" = false ∧
    exBigText.toList.length = 2500 ∧
    exTruncPartText.toList.length = 2017 := by
  have hslice : (jsSlice exBigText 2000).data = List.replicate 2000 'a' := by
    show (exBigText.toList.take 2000) = _
    show ((List.replicate 2500 'a').take 2000) = _
    rw [List.take_replicate]
    norm_num
  have hpart : exTruncPartText.data = "[File: doc.pdf]\n\n".toList ++ List.replicate 2000 'a' := rfl
  refine ⟨?_, ?_, ?_, ?_⟩
  · have h0 : mapAttachment exTruncAttachment
        = some (.utext ("[File: " ++ "doc.pdf" ++ "]\n\n" ++ jsSlice exBigText 2000)) := rfl
    rw [h0]
    have : ("[File: " ++ "doc.pdf" ++ "]\n\n" ++ jsSlice exBigText 2000) = exTruncPartText := by
      apply String.ext
      rw [hpart]
      show ("[File: " ++ "doc.pdf" ++ "]\n\n").data ++ (jsSlice exBigText 2000).data = _
      rw [hslice]
      have hh : ("[File: " ++ "doc.pdf" ++ "]\n\n").data = "[File: doc.pdf]\n\n".toList := by decide
      rw [hh]
    rw [this]
  · show listStartsWith "[... content truncated ...]".toList.reverse exTruncPartText.toList.reverse = false
    have h1 : exTruncPartText.toList = "[File: doc.pdf]\n\n".toList ++ List.replicate 2000 'a' := hpart
    rw [h1, List.reverse_append, List.reverse_replicate,
      show (2000 : Nat) = 1999 + 1 from rfl, List.replicate_succ, List.cons_append,
      show "[... content truncated ...]".toList.reverse
        = ']' :: "[... content truncated ...".toList.reverse from by decide]
    simp [listStartsWith]
  · show (List.replicate 2500 'a').length = 2500
    rw [List.length_replicate]
  · show ("[File: doc.pdf]\n\n".toList ++ List.replicate 2000 'a').length = 2017
    rw [List.length_append, List.length_replicate]
    decide

/-- C5 counterexample: a lowered file part that still references an image by
storage path (no inline data URI) is forwarded to the provider unchanged —
the pipeline neither rewrites it nor fails with `MissingInlineImageData`
(no such failure path exists in the code). -/
theorem c5_referenced_image_forwarded_cex :
    processedModelMessages [⟨"user", .cparts [.mfile (some "/uploads/cat.png")]⟩]
      = [⟨"user", .cparts [.mfile (some "/uploads/cat.png")]⟩] := by decide

/-- C5 (amended): the stage-2 adapter rewrites exactly the file parts whose
data already starts with `"data:image/"` into inline image parts; every
other part — including file parts whose data is a non-inline reference, or
missing — is forwarded unchanged, with no failure path. -/
theorem c5_stage2_inline_image_conversion :
    (∀ d : String, strStartsWith d "data:image/" = true →
      processModelPart (.mfile (some d)) = .mimage d) ∧
    (∀ d : String, strStartsWith d "data:image/" = false →
      processModelPart (.mfile (some d)) = .mfile (some d)) ∧
    processModelPart (.mfile none) = .mfile none ∧
    (∀ t, processModelPart (.mtext t) = .mtext t) ∧
    (∀ role ps, processedModelMessages [⟨role, .cparts ps⟩]
      = [⟨role, .cparts (ps.map processModelPart)⟩]) := by
  refine ⟨?_, ?_, by decide, fun t => rfl, fun role ps => rfl⟩
  · intro d hd
    have hne : d ≠ "" := by
      rcases d with ⟨l⟩
      cases l with
      | nil => simp [strStartsWith, listStartsWith] at hd
      | cons c cs => simp [String.ext_iff]
    simp [processModelPart, hne, hd]
  · intro d hd
    simp [processModelPart, hd]

/-- C5 witness: a file part already carrying a data URI becomes an inline
image part. -/
theorem c5_stage2_inline_image_conversion_witness :
    processModelPart (.mfile (some "data:image/png;base64,AAA"))
      = .mimage "data:image/png;base64,AAA" :=
  c5_stage2_inline_image_conversion.1 "data:image/png;base64,AAA" (by decide)

/-- C6: when the underlying `pdf-parse` step fails, `extractTextFromPDF`
always throws (never returns a string), and the thrown message is classified
from the parser's error text by the fixed if-chain: invalid PDF → corrupt,
then password, then encrypted, and otherwise a generic message carrying the
parser detail. -/
theorem c6_pdf_extraction_error_classification (msg : String) :
    (∀ s, extractTextFromPDF (.failed msg) ≠ .ok s) ∧
    (strContainsB msg "Invalid PDF" = true →
      extractTextFromPDF (.failed msg) = .error "Invalid or corrupted PDF file") ∧
    (strContainsB msg "Invalid PDF" = false → strContainsB msg "password" = true →
      extractTextFromPDF (.failed msg) = .error "PDF is password-protected") ∧
    (strContainsB msg "Invalid PDF" = false → strContainsB msg "password" = false →
      strContainsB msg "encrypted" = true →
      extractTextFromPDF (.failed msg) = .error "PDF is encrypted") ∧
    (strContainsB msg "Invalid PDF" = false → strContainsB msg "password" = false →
      strContainsB msg "encrypted" = false → msg ≠ "" →
      extractTextFromPDF (.failed msg) = .error ("PDF parsing error: " ++ msg)) := by
  refine ⟨fun s h => by simp [extractTextFromPDF] at h, ?_, ?_, ?_, ?_⟩
  · intro h1; simp [extractTextFromPDF, pdfErrorMessage, h1]
  · intro h1 h2; simp [extractTextFromPDF, pdfErrorMessage, h1, h2]
  · intro h1 h2 h3; simp [extractTextFromPDF, pdfErrorMessage, h1, h2, h3]
  · intro h1 h2 h3 h4; simp [extractTextFromPDF, pdfErrorMessage, h1, h2, h3, h4]

/-- C6 witness: the corrupt-document case at the message `pdf-parse` raises
on a garbage buffer. -/
theorem c6_pdf_extraction_error_classification_witness :
    extractTextFromPDF (.failed "Invalid PDF structure")
      = .error "Invalid or corrupted PDF file" :=
  (c6_pdf_extraction_error_classification "Invalid PDF structure").2.1 (by decide)

/-- C1 (amended): `getMemoriesByUserId` returns only rows of the requested
user, all meeting the (truthy) `minImportance` bound, at most `limit || 50`
of them, drawn from the stored rows, and sorted by the stored `importance`
*text* in descending lexicographic order with ties broken by `updatedAt`
descending — because `importance` is a `text` column, `"9"` sorts before
`"10"`, so a record of importance 10 is NOT ordered before one of
importance 9. -/
theorem c1_getMemories_filter_sort_limit (st : MemDb) (u minImp lim now : Nat) :
    (∀ m ∈ (getMemoriesByUserId st u ⟨none, lim, minImp⟩ now).1, m.userId = u) ∧
    (minImp ≠ 0 → ∀ m ∈ (getMemoriesByUserId st u ⟨none, lim, minImp⟩ now).1,
      minImp ≤ castInt m.importance) ∧
    ((getMemoriesByUserId st u ⟨none, lim, minImp⟩ now).1.length
      ≤ if lim = 0 then 50 else lim) ∧
    (∀ m ∈ (getMemoriesByUserId st u ⟨none, lim, minImp⟩ now).1, m ∈ st.rows) ∧
    List.Pairwise (fun a b =>
      impKeyOfString b.importance < impKeyOfString a.importance ∨
      (impKeyOfString a.importance = impKeyOfString b.importance ∧
        b.updatedAt ≤ a.updatedAt))
      (getMemoriesByUserId st u ⟨none, lim, minImp⟩ now).1 := by
  have hres : (getMemoriesByUserId st u ⟨none, lim, minImp⟩ now).1
      = (List.insertionSort memOrderR
          (st.rows.filter (memQueryCond u ⟨none, lim, minImp⟩))).take
        (if lim == 0 then 50 else lim) := rfl
  have hmem : ∀ m ∈ (getMemoriesByUserId st u ⟨none, lim, minImp⟩ now).1,
      memQueryCond u ⟨none, lim, minImp⟩ m = true ∧ m ∈ st.rows := by
    intro m hm
    rw [hres] at hm
    have hm2 := (List.take_sublist _ _).subset hm
    have hm3 := (List.perm_insertionSort memOrderR _).mem_iff.mp hm2
    exact ⟨(List.mem_filter.mp hm3).2, (List.mem_filter.mp hm3).1⟩
  refine ⟨?_, ?_, ?_, fun m hm => (hmem m hm).2, ?_⟩
  · intro m hm
    have h := (hmem m hm).1
    simp only [memQueryCond, Bool.and_eq_true, beq_iff_eq] at h
    exact h.1.1
  · intro hmin m hm
    have h := (hmem m hm).1
    simp only [memQueryCond, Bool.and_eq_true, beq_iff_eq, Bool.or_eq_true,
      decide_eq_true_eq] at h
    rcases h.2 with h2 | h2
    · exact absurd h2 hmin
    · exact h2
  · rw [hres]
    calc ((List.insertionSort memOrderR
            (st.rows.filter (memQueryCond u ⟨none, lim, minImp⟩))).take
          (if lim == 0 then 50 else lim)).length
        ≤ (if lim == 0 then 50 else lim) := List.length_take_le _ _
      _ ≤ if lim = 0 then 50 else lim := by by_cases h : lim = 0 <;> simp [h]
  · rw [hres]
    have hs : List.Pairwise memOrderR
        (List.insertionSort memOrderR
          (st.rows.filter (memQueryCond u ⟨none, lim, minImp⟩))) :=
      List.sorted_insertionSort memOrderR _
    have ht := hs.sublist (List.take_sublist (if lim == 0 then 50 else lim) _)
    refine ht.imp ?_
    intro a b hab
    unfold memOrderR memOrderDesc at hab
    simpa using hab

/-- C1 counterexample: with `minImportance = 5` and `limit = 20`, the row
stored with importance `"10"` is returned AFTER the row with importance
`"9"` — the text-column `ORDER BY` sorts `"9"` first — refuting the claimed
numeric ordering. -/
theorem c1_text_importance_ordering_cex :
    (getMemoriesByUserId ⟨[exMemTen, exMemNine], 3⟩ 1 ⟨none, 20, 5⟩ 0).1
      = [exMemNine, exMemTen] ∧
    castInt exMemTen.importance = 10 ∧ castInt exMemNine.importance = 9 := by decide

/-- C1 witness: the filter bound instantiated on the concrete store. -/
theorem c1_getMemories_filter_sort_limit_witness :
    (5 : Nat) ≤ castInt exMemNine.importance :=
  (c1_getMemories_filter_sort_limit ⟨[exMemTen, exMemNine], 3⟩ 1 5 20 0).2.1
    (by decide) exMemNine (by decide)


lemma pairwise_id_inj {l : List Mem}
    (h : List.Pairwise (fun a b => a.id ≠ b.id) l) :
    ∀ a ∈ l, ∀ b ∈ l, a.id = b.id → a = b := by
  induction l with
  | nil => simp
  | cons x xs ih =>
    rw [List.pairwise_cons] at h
    intro a ha b hb heq
    rcases List.mem_cons.mp ha with rfl | ha' <;>
      rcases List.mem_cons.mp hb with rfl | hb'
    · rfl
    · exact absurd heq (h.1 b hb')
    · exact absurd heq.symm (h.1 a ha')
    · exact ih h.2 a ha' b hb' heq

lemma saveMemory_stateOK {st : MemDb} (p : CreateMemoryParams) (now : Nat)
    (h : StateOK st) : StateOK (saveMemory st p now).1 := by
  obtain ⟨hid, huk, hbound⟩ := h
  cases hf : st.rows.filter (fun m => m.userId == p.userId && m.key == p.key) with
  | cons r rest =>
    have hrf : r ∈ st.rows.filter (fun m => m.userId == p.userId && m.key == p.key) := by
      rw [hf]; exact List.mem_cons_self r rest
    have hrmem : r ∈ st.rows := (List.mem_filter.mp hrf).1
    have hfid : ∀ m : Mem, (if m.id == r.id then updatedRow r p now else m).id = m.id := by
      intro m
      by_cases hm : m.id == r.id
      · have hmid : m.id = r.id := eq_of_beq hm
        simp [hm, updatedRow, hmid]
      · simp [hm]
    have hfuk : ∀ m ∈ st.rows,
        (if m.id == r.id then updatedRow r p now else m).userId = m.userId ∧
        (if m.id == r.id then updatedRow r p now else m).key = m.key := by
      intro m hm
      by_cases hmr : m.id == r.id
      · have hmeq : m = r := pairwise_id_inj hid m hm r hrmem (eq_of_beq hmr)
        subst hmeq
        simp [hmr, updatedRow]
      · simp [hmr]
    simp only [saveMemory, hf]
    refine ⟨?_, ?_, ?_⟩
    · rw [List.pairwise_map]
      exact hid.imp_of_mem (fun {a b} _ _ hab => by rw [hfid a, hfid b]; exact hab)
    · unfold UniqueUserKey
      rw [List.pairwise_map]
      exact huk.imp_of_mem (fun {a b} ha hb hab => by
        rw [(hfuk a ha).1, (hfuk a ha).2, (hfuk b hb).1, (hfuk b hb).2]
        exact hab)
    · intro m hm
      rcases List.mem_map.mp hm with ⟨m0, hm0, rfl⟩
      calc (if m0.id == r.id then updatedRow r p now else m0).id = m0.id := hfid m0
        _ < st.nextId := hbound m0 hm0
  | nil =>
    have hnone : ∀ m ∈ st.rows, ¬((m.userId == p.userId && m.key == p.key) = true) :=
      List.filter_eq_nil_iff.mp hf
    simp only [saveMemory, hf]
    refine ⟨?_, ?_, ?_⟩
    · rw [List.pairwise_append]
      refine ⟨hid, List.pairwise_singleton _ _, ?_⟩
      intro a ha b hb
      rw [List.mem_singleton] at hb
      subst hb
      exact Nat.ne_of_lt (hbound a ha)
    · unfold UniqueUserKey
      rw [List.pairwise_append]
      refine ⟨huk, List.pairwise_singleton _ _, ?_⟩
      intro a ha b hb hcon
      rw [List.mem_singleton] at hb
      subst hb
      exact hnone a ha (by
        simp only [insertedRow] at hcon
        simp [hcon.1, hcon.2])
    · intro m hm
      rcases List.mem_append.mp hm with hm | hm
      · exact lt_trans (hbound m hm) (Nat.lt_succ_self _)
      · rw [List.mem_singleton] at hm
        subst hm
        exact Nat.lt_succ_self _

lemma runSaves_stateOK (calls : List (CreateMemoryParams × Nat)) :
    ∀ st : MemDb, StateOK st → StateOK (runSaves st calls) := by
  induction calls with
  | nil => intro st h; exact h
  | cons c rest ih =>
    intro st h
    exact ih _ (saveMemory_stateOK c.1 c.2 h)

lemma uniqueUserKey_countP_le_one {rows : List Mem} (h : UniqueUserKey rows)
    (u : Nat) (k : String) :
    rows.countP (fun m => m.userId == u && m.key == k) ≤ 1 := by
  induction rows with
  | nil => rw [List.countP_nil]; omega
  | cons a l ih =>
    have h1 := List.pairwise_cons.mp h
    by_cases hp : (a.userId == u && a.key == k) = true
    · rw [List.countP_cons_of_pos (fun m => m.userId == u && m.key == k) l hp]
      have hz : l.countP (fun m => m.userId == u && m.key == k) = 0 := by
        rw [List.countP_eq_zero]
        intro b hb hbp
        simp only [Bool.and_eq_true, beq_iff_eq] at hp hbp
        exact h1.1 b hb ⟨hp.1.trans hbp.1.symm, hp.2.trans hbp.2.symm⟩
      omega
    · rw [List.countP_cons_of_neg (fun m => m.userId == u && m.key == k) l hp]
      exact ih h1.2

/-- C3: `saveMemory` upserts: starting from an empty store, any sequence of
calls leaves at most one row per `(userId, key)` pair; a call whose key
already exists updates in place (the row count does not grow); and calling
`upsertMemory(1, "name", "Alice", 7)` twice leaves exactly one row with key
`"name"`. -/
theorem c3_upsert_at_most_one_per_userkey :
    (∀ calls : List (CreateMemoryParams × Nat), ∀ u k,
      (runSaves ⟨[], 0⟩ calls).rows.countP
        (fun m => m.userId == u && m.key == k) ≤ 1) ∧
    (∀ (st : MemDb) (p : CreateMemoryParams) (now : Nat),
      st.rows.filter (fun m => m.userId == p.userId && m.key == p.key) ≠ [] →
      (saveMemory st p now).1.rows.length = st.rows.length) ∧
    (runSaves ⟨[], 0⟩ [(exNameParams, 10), (exNameParams, 20)]).rows.countP
      (fun m => m.key == "name") = 1 := by
  refine ⟨?_, ?_, by decide⟩
  · intro calls u k
    have h0 : StateOK ⟨[], 0⟩ := ⟨List.Pairwise.nil, List.Pairwise.nil, by simp⟩
    exact uniqueUserKey_countP_le_one (runSaves_stateOK calls _ h0).2.1 u k
  · intro st p now hne
    cases hf : st.rows.filter (fun m => m.userId == p.userId && m.key == p.key) with
    | nil => exact absurd hf hne
    | cons r rest => simp [saveMemory, hf]

/-- C3 witness: the update-in-place fact instantiated on a store already
holding the `(1, "name")` row. -/
theorem c3_upsert_at_most_one_per_userkey_witness :
    (saveMemory ⟨[exRow], 6⟩ exNameParams 30).1.rows.length = 1 :=
  c3_upsert_at_most_one_per_userkey.2.1 ⟨[exRow], 6⟩ exNameParams 30 (by decide)

/-- C10: on an existing `(userId, key)` row, `saveMemory` overwrites
`value`, `importance`, `updatedAt`, `lastAccessedAt` and (when supplied)
`metadata`, bumps `accessCount` by exactly one, sets `chatId` only when a
truthy one was supplied, leaves `category` and `createdAt` (and the row
count) unchanged — an upsert with a different category does not
recategorize the memory. -/
theorem c10_saveMemory_update_frame (st : MemDb) (p : CreateMemoryParams)
    (now : Nat) (r : Mem) (rest : List Mem)
    (h : st.rows.filter (fun m => m.userId == p.userId && m.key == p.key) = r :: rest) :
    (saveMemory st p now).2.value = p.value ∧
    (saveMemory st p now).2.importance = toString p.importance ∧
    (saveMemory st p now).2.updatedAt = now ∧
    (saveMemory st p now).2.lastAccessedAt = now ∧
    (saveMemory st p now).2.accessCount = toString (castInt r.accessCount + 1) ∧
    (∀ md, p.metadata = some md → (saveMemory st p now).2.metadata = some md) ∧
    (strTruthy p.chatId = true → (saveMemory st p now).2.chatId = p.chatId) ∧
    (strTruthy p.chatId = false → (saveMemory st p now).2.chatId = r.chatId) ∧
    (saveMemory st p now).2.category = r.category ∧
    (saveMemory st p now).2.createdAt = r.createdAt ∧
    (saveMemory st p now).2.key = r.key ∧
    (saveMemory st p now).2.userId = r.userId ∧
    (saveMemory st p now).1.rows.length = st.rows.length := by
  simp only [saveMemory, h]
  refine ⟨rfl, rfl, rfl, rfl, rfl, ?_, ?_, ?_, rfl, rfl, rfl, rfl, by simp⟩
  · intro md hmd
    simp [updatedRow, hmd]
  · intro hc
    simp [updatedRow, hc]
  · intro hc
    simp [updatedRow, hc]

/-- C10 witness: updating the `(1, "name")` row with params of a different
category keeps the stored category and createdAt; the access counter moves
from "4" to "5". -/
theorem c10_saveMemory_update_frame_witness :
    (saveMemory ⟨[exRow], 6⟩ exParams 99).2.category = exRow.category ∧
    exParams.category ≠ exRow.category ∧
    (saveMemory ⟨[exRow], 6⟩ exParams 99).2.accessCount
      = toString (castInt exRow.accessCount + 1) := by
  have h := c10_saveMemory_update_frame ⟨[exRow], 6⟩ exParams 99 exRow [] (by decide)
  exact ⟨h.2.2.2.2.2.2.2.2.1, by decide, h.2.2.2.2.1⟩

lemma groupInsert_keys (acc : List (String × List Mem)) (c : String) (m : Mem) :
    (groupInsert acc c m).map Prod.fst =
      if c ∈ acc.map Prod.fst then acc.map Prod.fst else acc.map Prod.fst ++ [c] := by
  induction acc with
  | nil => simp [groupInsert]
  | cons g rest ih =>
    obtain ⟨c0, ms⟩ := g
    by_cases hc : c0 = c
    · subst hc
      simp [groupInsert]
    · simp only [groupInsert, if_neg hc, List.map_cons, ih]
      by_cases hmem : c ∈ rest.map Prod.fst
      · simp [hmem, Ne.symm hc]
      · simp [hmem, Ne.symm hc]

lemma foldl_group_keys (mems : List Mem) :
    ∀ acc : List (String × List Mem),
      ((mems.foldl (fun acc m => groupInsert acc (effCat m) m) acc).map Prod.fst)
        = seenFoldCats (acc.map Prod.fst) (mems.map effCat) := by
  induction mems with
  | nil => intro acc; rfl
  | cons m ms ih =>
    intro acc
    simp only [List.foldl_cons, List.map_cons]
    rw [ih, groupInsert_keys]
    rfl

lemma groupInsert_groupsOK {src : List Mem} {acc : List (String × List Mem)}
    {c : String} {m : Mem} (hacc : GroupsOK src acc) (hm : m ∈ src)
    (hc : effCat m = c) : GroupsOK src (groupInsert acc c m) := by
  induction acc with
  | nil =>
    intro g hg
    simp only [groupInsert, List.mem_singleton] at hg
    subst hg
    exact ⟨by simp, by simpa using ⟨hm, hc⟩⟩
  | cons g0 rest ih =>
    obtain ⟨c0, ms⟩ := g0
    have hacc0 := hacc (c0, ms) (List.mem_cons_self _ _)
    have hrest : GroupsOK src rest := fun g hg => hacc g (List.mem_cons_of_mem _ hg)
    by_cases h0 : c0 = c
    · subst h0
      intro g hg
      simp only [groupInsert, if_pos rfl] at hg
      rcases List.mem_cons.mp hg with rfl | hg'
      · refine ⟨by simp, ?_⟩
        intro x hx
        rcases List.mem_append.mp hx with hx | hx
        · exact hacc0.2 x hx
        · rw [List.mem_singleton] at hx
          subst hx
          exact ⟨hm, hc⟩
      · exact hrest g hg'
    · intro g hg
      simp only [groupInsert, if_neg h0] at hg
      rcases List.mem_cons.mp hg with rfl | hg'
      · exact hacc0
      · exact ih hrest g hg'

lemma foldl_groupsOK {src : List Mem} (mems : List Mem)
    (hsrc : ∀ m ∈ mems, m ∈ src) :
    ∀ acc : List (String × List Mem), GroupsOK src acc →
      GroupsOK src (mems.foldl (fun acc m => groupInsert acc (effCat m) m) acc) := by
  induction mems with
  | nil => intro acc h; exact h
  | cons m ms ih =>
    intro acc h
    simp only [List.foldl_cons]
    exact ih (fun x hx => hsrc x (List.mem_cons_of_mem _ hx)) _
      (groupInsert_groupsOK h (hsrc m (List.mem_cons_self _ _)) rfl)

/-- C8 (amended): `formatMemoriesForContext` returns `""` on no records and
otherwise renders one headed section per non-empty category; the sections
appear in the order in which each category FIRST OCCURS in the input list
(JS object key insertion order), not in the fixed order personal,
preference, context, fact; each rendered group is non-empty and holds
exactly records of its own category. -/
theorem c8_format_sections_first_occurrence_order (mems : List Mem) :
    formatMemoriesForContext [] = "" ∧
    ((groupByCategory mems).map Prod.fst) = firstOccurrences (mems.map effCat) ∧
    GroupsOK mems (groupByCategory mems) ∧
    (mems ≠ [] → formatMemoriesForContext mems
      = jsTrim ("## User Memory\n\n"
          ++ String.join ((groupByCategory mems).map renderGroup))) := by
  refine ⟨rfl, ?_, ?_, ?_⟩
  · exact foldl_group_keys mems []
  · exact foldl_groupsOK mems (fun m hm => hm) [] (by intro g hg; simp at hg)
  · intro hne
    have : (mems.length == 0) = false := by
      cases mems with
      | nil => exact absurd rfl hne
      | cons a l => rfl
    simp [formatMemoriesForContext, this]

/-- C8 counterexample: a fact record followed by a personal record renders
the `Known Facts` section BEFORE the `Personal Information` section (index
16 vs 42), contradicting the claimed fixed order personal, preference,
context, fact. -/
theorem c8_fixed_category_order_cex :
    formatMemoriesForContext [exMemFact, exMemPersonal]
      = "## User Memory\n\n### Known Facts\n- a1: v1\n\n### Personal Information\n- b1: v2" ∧
    strIndexOf (formatMemoriesForContext [exMemFact, exMemPersonal])
      "### Known Facts" = some 16 ∧
    strIndexOf (formatMemoriesForContext [exMemFact, exMemPersonal])
      "### Personal Information" = some 42 ∧
    (16 : Nat) < 42 := by decide

/-- C8 witness: the grouping facts instantiated on the two-record list. -/
theorem c8_format_sections_first_occurrence_order_witness :
    formatMemoriesForContext [] = "" ∧
    ((groupByCategory [exMemFact, exMemPersonal]).map Prod.fst)
      = firstOccurrences ([exMemFact, exMemPersonal].map effCat) ∧
    formatMemoriesForContext [exMemFact, exMemPersonal]
      = jsTrim ("## User Memory\n\n"
          ++ String.join ((groupByCategory [exMemFact, exMemPersonal]).map renderGroup)) := by
  have h := c8_format_sections_first_occurrence_order [exMemFact, exMemPersonal]
  exact ⟨h.1, h.2.1, h.2.2.2 (by decide)⟩

lemma saveMemory_written_fields (st : MemDb) (p : CreateMemoryParams) (now : Nat) :
    (saveMemory st p now).2.importance = toString p.importance ∧
    (saveMemory st p now).2.userId = p.userId ∧
    (saveMemory st p now).2.key = p.key ∧
    (saveMemory st p now).2.value = p.value := by
  cases hf : st.rows.filter (fun m => m.userId == p.userId && m.key == p.key) with
  | cons r rest =>
    have hrf : r ∈ st.rows.filter (fun m => m.userId == p.userId && m.key == p.key) := by
      rw [hf]; exact List.mem_cons_self r rest
    have hpred := (List.mem_filter.mp hrf).2
    simp only [Bool.and_eq_true, beq_iff_eq] at hpred
    simp only [saveMemory, hf, updatedRow]
    exact ⟨trivial, hpred.1, hpred.2, trivial⟩
  | nil =>
    simp [saveMemory, hf, insertedRow]

lemma extractLoop_saved_fields (failsAt : Nat → Bool) (msg : List Char) (u : Nat)
    (chatId : String) (now : Nat) :
    ∀ (rs : List ExtractionRule) (i : Nat) (st : MemDb),
      ∀ m ∈ (extractLoop failsAt msg u chatId now i rs st).2,
        m.importance = toString 7 ∧ m.userId = u := by
  intro rs
  induction rs with
  | nil => intro i st m hm; simp [extractLoop] at hm
  | cons rule rs ih =>
    intro i st m hm
    cases hmt : rule.matcher msg with
    | none =>
      simp only [extractLoop, hmt] at hm
      exact ih (i + 1) st m hm
    | some cap =>
      by_cases hcap : cap.isEmpty
      · simp only [extractLoop, hmt, hcap] at hm
        exact ih (i + 1) st m hm
      · have hcap' : cap.isEmpty = false := by simpa using hcap
        by_cases hfl : failsAt i
        · simp only [extractLoop, hmt, hcap', hfl] at hm
          exact ih (i + 1) st m hm
        · have hfl' : failsAt i = false := by simpa using hfl
          simp only [extractLoop, hmt, hcap', hfl'] at hm
          simp only [Bool.not_false, if_true, if_false] at hm
          rcases List.mem_cons.mp hm with rfl | hm'
          · have hw := saveMemory_written_fields st
              { userId := u, chatId := some chatId, category := rule.category,
                key := rule.key, value := cap.asString, importance := 7,
                metadata := some "extractedFrom: conversation" } now
            exact ⟨hw.1, hw.2.1⟩
          · exact ih (i + 1) _ m hm'

lemma extractLoop_rule_applied (failsAt : Nat → Bool) (msg : List Char) (u : Nat)
    (chatId : String) (now : Nat) :
    ∀ (rs : List ExtractionRule) (i : Nat) (st : MemDb) (j : Nat)
      (hj : j < rs.length) (cap : List Char),
      (rs.get ⟨j, hj⟩).matcher msg = some cap → cap.isEmpty = false →
      failsAt (i + j) = false →
      ∃ m ∈ (extractLoop failsAt msg u chatId now i rs st).2,
        m.key = (rs.get ⟨j, hj⟩).key ∧ m.value = cap.asString := by
  intro rs
  induction rs with
  | nil => intro i st j hj; simp at hj
  | cons rule rs ih =>
    intro i st j hj cap hmatch hcap hfail
    cases j with
    | zero =>
      simp only [List.get] at hmatch
      have hfl : failsAt i = false := by simpa using hfail
      simp only [extractLoop, hmatch, hcap, Bool.not_false, if_true, hfl, if_false]
      refine ⟨(saveMemory st
          { userId := u, chatId := some chatId, category := rule.category,
            key := rule.key, value := cap.asString, importance := 7,
            metadata := some "extractedFrom: conversation" } now).2,
        List.mem_cons_self _ _, ?_, ?_⟩
      · exact (saveMemory_written_fields st _ now).2.2.1
      · exact (saveMemory_written_fields st _ now).2.2.2
    | succ j' =>
      have hj' : j' < rs.length := Nat.lt_of_succ_lt_succ hj
      have hfail' : failsAt ((i + 1) + j') = false := by
        have : (i + 1) + j' = i + (j' + 1) := by omega
        rw [this]; exact hfail
      have hmatch' : (rs.get ⟨j', hj'⟩).matcher msg = some cap := hmatch
      cases hmt : rule.matcher msg with
      | none =>
        simp only [extractLoop, hmt]
        exact ih (i + 1) st j' hj' cap hmatch' hcap hfail'
      | some cap0 =>
        by_cases hcap0 : cap0.isEmpty
        · simp only [extractLoop, hmt, hcap0]
          exact ih (i + 1) st j' hj' cap hmatch' hcap hfail'
        · have hcap0' : cap0.isEmpty = false := by simpa using hcap0
          by_cases hfl : failsAt i
          · simp only [extractLoop, hmt, hcap0', hfl]
            simp only [Bool.not_false, if_true]
            exact ih (i + 1) st j' hj' cap hmatch' hcap hfail'
          · have hfl' : failsAt i = false := by simpa using hfl
            simp only [extractLoop, hmt, hcap0', hfl', Bool.not_false, if_true, if_false]
            obtain ⟨m, hm, hk, hv⟩ := ih (i + 1) _ j' hj' cap hmatch' hcap hfail'
            exact ⟨m, List.mem_cons_of_mem _ hm, hk, hv⟩

/-- C9: memory extraction applies its fixed ordered rule list to the user
message only (the AI response never influences the result); every saved
record carries the fixed importance 7 and the caller's user id; and the
failure of any one rule's write (modelled by `failsAt`) is caught in the
loop, so every other matching rule still saves its record and no failure
ever escapes (the function is total and always returns its accumulated
list). -/
theorem c9_extraction_rules_isolated (failsAt : Nat → Bool) (st : MemDb)
    (u : Nat) (chatId : String) (userMessage aiResp aiResp' : String) (now : Nat) :
    extractMemoriesFromConversation failsAt st u chatId userMessage aiResp now
      = extractMemoriesFromConversation failsAt st u chatId userMessage aiResp' now ∧
    (∀ m ∈ (extractMemoriesFromConversation failsAt st u chatId userMessage aiResp now).2,
      m.importance = toString 7 ∧ m.userId = u) ∧
    (∀ j (hj : j < memoryPatterns.length) cap,
      (memoryPatterns.get ⟨j, hj⟩).matcher userMessage.toList = some cap →
      cap.isEmpty = false → failsAt j = false →
      ∃ m ∈ (extractMemoriesFromConversation failsAt st u chatId userMessage aiResp now).2,
        m.key = (memoryPatterns.get ⟨j, hj⟩).key ∧ m.value = cap.asString) := by
  refine ⟨rfl, ?_, ?_⟩
  · exact fun m hm =>
      extractLoop_saved_fields failsAt userMessage.toList u chatId now memoryPatterns 0 st m hm
  · intro j hj cap h1 h2 h3
    have h3' : failsAt (0 + j) = false := by simpa using h3
    exact extractLoop_rule_applied failsAt userMessage.toList u chatId now
      memoryPatterns 0 st j hj cap h1 h2 h3'

/-- C9 witness: with the first rule's write failing, the second rule
(`I live in (\w+)` → location) still saves its record. -/
theorem c9_extraction_rules_isolated_witness :
    ∃ m ∈ (extractMemoriesFromConversation (fun j => j == 0) ⟨[], 0⟩ 1 "chat1"
        "my name is Alice and I live in Paris" "resp" 5).2,
      m.key = "location" ∧ m.value = "Paris" := by
  have h := (c9_extraction_rules_isolated (fun j => j == 0) ⟨[], 0⟩ 1 "chat1"
    "my name is Alice and I live in Paris" "resp" "other" 5).2.2 1 (by decide)
    "Paris".toList (by decide) (by decide) (by decide)
  simpa using h
lemma utf8Encode_cons (c : Nat) (cs : List Nat) :
    utf8Encode (c :: cs) = utf8EncodeChar c ++ utf8Encode cs := by
  simp [utf8Encode]

set_option maxHeartbeats 2000000 in
lemma utf8_encode_decode (l : List Nat) :
    (utf8DecodeAux l).2 = false → utf8Encode (utf8DecodeAux l).1 = l := by
  induction l using utf8DecodeAux.induct
  all_goals intro hflag
  all_goals rw [utf8DecodeAux.eq_def] at hflag ⊢
  all_goals simp_all only [isContByte, Bool.and_eq_true, decide_eq_true_eq,
    and_self, and_true, true_and, if_true, if_false, ite_true, ite_false,
    utf8Encode, List.map_nil, List.flatten_nil, List.map_cons, List.flatten_cons,
    Bool.true_eq_false, Bool.false_eq_true]
  case case2 =>
    rename_i b rest hb ih
    simp only [utf8EncodeChar, if_pos hb]
    simp
  case case3 =>
    rename_i b hnb c rest2 hb2 hc ih
    obtain ⟨hb1, hb2'⟩ := hb2
    obtain ⟨hc1, hc2⟩ := hc
    simp only [utf8EncodeChar]
    rw [if_neg (by omega), if_pos (by omega)]
    simp only [List.cons_append, List.nil_append, List.cons.injEq]
    exact ⟨by omega, by omega, trivial⟩
  case case6 =>
    rename_i b hnb lo hi c1 c2 rest2 hn223 hb39 hlohi hcont ih
    have hcond : ((if b = 224 then 160 else 128) ≤ c1 ∧ c1 ≤ if b = 237 then 159 else 191) := hlohi
    rw [if_pos hcond] at hflag ⊢
    have hrf : (utf8DecodeAux rest2).2 = false := hflag
    rw [List.map_cons, List.flatten_cons, ih hrf]
    obtain ⟨hb1, hb2⟩ := hb39
    obtain ⟨hc21, hc22⟩ := hcont
    have h1 : (if b = 224 then (160:Nat) else 128) ≤ c1 := hcond.1
    have h2 : c1 ≤ (if b = 237 then (159:Nat) else 191) := hcond.2
    have hge : 128 ≤ c1 := by split at h1 <;> omega
    have hle : c1 ≤ 191 := by split at h2 <;> omega
    have hcp : 2048 ≤ (b - 224) * 4096 + (c1 - 128) * 64 + (c2 - 128) := by
      by_cases hb' : b = 224
      · rw [if_pos hb'] at h1
        omega
      · have : 225 ≤ b := by omega
        omega
    simp only [utf8EncodeChar]
    rw [if_neg (by omega), if_neg (by omega), if_pos (by omega)]
    simp only [List.cons_append, List.nil_append, List.cons.injEq]
    exact ⟨by omega, by omega, by omega, trivial⟩
  case case7 =>
    rw [apply_ite Prod.snd] at hflag
    simp at hflag
  case case8 =>
    rw [apply_ite Prod.snd] at hflag
    simp at hflag
  case case9 =>
    rename_i b hnb lo hi c1 rest2 hn223 hb39 hneg ih
    have hneg' : ¬((if b = 224 then (160:Nat) else 128) ≤ c1 ∧
        c1 ≤ if b = 237 then (159:Nat) else 191) := hneg
    rw [if_neg hneg'] at hflag
    simp at hflag
  case case11 =>
    rename_i b hnb lo hi c1 c2 c3 rest2 hn223 hn239 hb44 hlohi hc2 hc3 ih
    have hcond : ((if b = 240 then 144 else 128) ≤ c1 ∧ c1 ≤ if b = 244 then 143 else 191) := hlohi
    rw [if_pos hcond] at hflag ⊢
    have hrf : (utf8DecodeAux rest2).2 = false := hflag
    rw [List.map_cons, List.flatten_cons, ih hrf]
    obtain ⟨hb1, hb2⟩ := hb44
    obtain ⟨hc21, hc22⟩ := hc2
    obtain ⟨hc31, hc32⟩ := hc3
    have h1 : (if b = 240 then (144:Nat) else 128) ≤ c1 := hcond.1
    have h2 : c1 ≤ (if b = 244 then (143:Nat) else 191) := hcond.2
    have hge : 128 ≤ c1 := by split at h1 <;> omega
    have hle : c1 ≤ 191 := by split at h2 <;> omega
    have hcp : 65536 ≤ (b - 240) * 262144 + (c1 - 128) * 4096 + (c2 - 128) * 64 + (c3 - 128) := by
      by_cases hb' : b = 240
      · rw [if_pos hb'] at h1
        omega
      · have : 241 ≤ b := by omega
        omega
    simp only [utf8EncodeChar]
    rw [if_neg (by omega), if_neg (by omega), if_neg (by omega)]
    simp only [List.cons_append, List.nil_append, List.cons.injEq]
    exact ⟨by omega, by omega, by omega, by omega, trivial⟩
  case case12 =>
    rw [apply_ite Prod.snd] at hflag
    simp at hflag
  case case13 =>
    rw [apply_ite Prod.snd] at hflag
    simp at hflag
  case case14 =>
    rw [apply_ite Prod.snd] at hflag
    simp at hflag
  case case15 =>
    rw [apply_ite Prod.snd] at hflag
    simp at hflag
  case case16 =>
    rename_i b hnb lo hi c1 rest2 hn223 hn239 hb44 hneg ih
    have hneg' : ¬((if b = 240 then (144:Nat) else 128) ≤ c1 ∧
        c1 ≤ if b = 244 then (143:Nat) else 191) := hneg
    rw [if_neg hneg'] at hflag
    simp at hflag

/-- C7 counterexample: the byte `0xFF` is not valid UTF-8, yet
`extractTextFromTextFile` does NOT fail with `DecodingFailed` — Node's
`buffer.toString('utf-8')` never throws; it replaces the invalid byte with
U+FFFD and returns normally. -/
theorem c7_invalid_utf8_no_failure_cex :
    validUtf8Bytes [255] = false ∧
    extractTextFromTextFile [255] = .ok [65533] := by
  constructor
  · simp [validUtf8Bytes, utf8DecodeAux]
  · simp [extractTextFromTextFile, utf8DecodeLossy, utf8DecodeAux]

/-- C7 (amended): `extractTextFromTextFile` is total — it always returns the
lossy UTF-8 decoding (invalid sequences replaced by U+FFFD), never
`DecodingFailed` — and on every valid UTF-8 buffer the returned code points
re-encode to exactly the input bytes, i.e. the decoded string is the true
decoding. -/
theorem c7_text_decoding_lossy_total (bytes : List Nat) :
    extractTextFromTextFile bytes = .ok (utf8DecodeLossy bytes) ∧
    (validUtf8Bytes bytes = true → utf8Encode (utf8DecodeLossy bytes) = bytes) := by
  refine ⟨rfl, ?_⟩
  intro hv
  have hflag : (utf8DecodeAux bytes).2 = false := by
    unfold validUtf8Bytes at hv
    simpa using hv
  exact utf8_encode_decode bytes hflag

/-- C7 witness: the valid two-byte ASCII buffer `"hi"` round-trips. -/
theorem c7_text_decoding_lossy_total_witness :
    utf8Encode (utf8DecodeLossy [104, 105]) = [104, 105] :=
  (c7_text_decoding_lossy_total [104, 105]).2 (by simp [validUtf8Bytes, utf8DecodeAux])
